import Mathlib

/-!
Shallow embedding of the monaco-json incremental line tokenizer
(src/tokenization.ts) together with a model of its external collaborator,
the jsonc-parser line scanner.  The tokenizer definitions (`JSONState`,
`areArraysEqual`, `equals`, `clone`, `createTokenizationSupport`,
`tokenize` and its scan loop) are translated directly from the source.
The character-level scanner is not part of this repository; it is
modelled from the spec's description of the Line Scanner collaborator.
-/

namespace MonacoJson

/-- Primitive token kinds produced by the Line Scanner
(jsonc-parser `SyntaxKind`). -/
inductive SyntaxKind where
| OpenBraceToken
| CloseBraceToken
| OpenBracketToken
| CloseBracketToken
| ColonToken
| CommaToken
| StringLiteral
| NumericLiteral
| TrueKeyword
| FalseKeyword
| NullKeyword
| LineCommentTrivia
| BlockCommentTrivia
| LineBreakTrivia
| Trivia
| Unknown
| EOF
deriving DecidableEq, Repr

/-- Scan error codes reported by the Line Scanner (jsonc-parser
`ScanError`); the spec's pendingError values None, UnterminatedString,
UnterminatedBlockComment. -/
inductive ScanError where
| None
| UnexpectedEndOfComment
| UnexpectedEndOfString
deriving DecidableEq, Repr

/-- Tags of currently open containers (source enum `JSONParent`). -/
inductive JSONParent where
| Object
| Array
deriving DecidableEq, Repr

/-- Result of one `scan` call of the Line Scanner: the token kind, the
scanner position after the token, and the token's scan error. -/
structure ScanStep where
  kind : SyntaxKind
  pos : Nat
  error : ScanError
deriving DecidableEq, Repr

/-- Whitespace characters recognised by the scanner. -/
def isWhitespaceChar (c : Char) : Bool :=
  c == ' ' || c == '\t'

/-- Linebreak characters. -/
def isLineBreakChar (c : Char) : Bool :=
  c == '\n' || c == '\r'

/-- Length of the leading run of decimal digits. -/
def digitsLen (l : List Char) : Nat :=
  (l.takeWhile Char.isDigit).length

/-- Length of the exponent tail after the letter e, including an
optional sign; 0 when no well-formed exponent digits follow. -/
def expTail (l : List Char) : Nat :=
  if l.head? = some '+' ∨ l.head? = some '-' then
    if 0 < digitsLen (l.drop 1) then 1 + digitsLen (l.drop 1) else 0
  else digitsLen l

/-- Length of the exponent portion of a number (the letter e plus
sign and digits), or 0 when absent. -/
def expPart (l : List Char) : Nat :=
  if l.head? = some 'e' ∨ l.head? = some 'E' then
    if 0 < expTail (l.drop 1) then 1 + expTail (l.drop 1) else 0
  else 0

/-- Length of the integer portion of a numeric literal (optional minus
sign plus digits). -/
def intLen (l : List Char) : Nat :=
  if l.head? = some '-' then 1 + digitsLen (l.drop 1) else digitsLen l

/-- Length of the fraction portion of a numeric literal (a dot followed
by at least one digit), or 0 when absent. -/
def fracLen (l : List Char) : Nat :=
  if l.head? = some '.' ∧ 0 < digitsLen (l.drop 1) then 1 + digitsLen (l.drop 1) else 0

/-- Length of the numeric literal starting at the head of `l`
(optional minus sign, integer digits, optional fraction, optional
exponent). -/
def numLen (l : List Char) : Nat :=
  intLen l + fracLen (l.drop (intLen l))
    + expPart ((l.drop (intLen l)).drop (fracLen (l.drop (intLen l))))

/-- Scan the remainder of a string literal (the characters after the
opening quote), returning the position one past the closing quote, or the
end of input with `UnexpectedEndOfString`.  `escaped` records that the
previous character was a backslash. -/
def scanStringRest (l : List Char) (p : Nat) (escaped : Bool) : Nat × ScanError :=
  match l with
  | [] => (p, ScanError.UnexpectedEndOfString)
  | c :: rest =>
    if escaped then scanStringRest rest (p + 1) false
    else if c = '"' then (p + 1, ScanError.None)
    else if c = '\\' then scanStringRest rest (p + 1) true
    else scanStringRest rest (p + 1) false

/-- Scan the remainder of a block comment (the characters after the
opener), returning the position one past the closing slash, or the end of
input with `UnexpectedEndOfComment`.  `prevStar` records that the
previous character was a star. -/
def scanBlockRest (l : List Char) (p : Nat) (prevStar : Bool) : Nat × ScanError :=
  match l with
  | [] => (p, ScanError.UnexpectedEndOfComment)
  | c :: rest =>
    if prevStar && c = '/' then (p + 1, ScanError.None)
    else scanBlockRest rest (p + 1) (c = '*')

/-- Token kind of an alphabetic keyword word. -/
def keywordKind (w : List Char) : SyntaxKind :=
  if w = ['t', 'r', 'u', 'e'] then SyntaxKind.TrueKeyword
  else if w = ['f', 'a', 'l', 's', 'e'] then SyntaxKind.FalseKeyword
  else if w = ['n', 'u', 'l', 'l'] then SyntaxKind.NullKeyword
  else SyntaxKind.Unknown

/-- One token starting at character `c` followed by `rest`: its kind,
the number of characters it consumes (at least one), and its scan
error. -/
def scanTok (c : Char) (rest : List Char) : SyntaxKind × Nat × ScanError :=
  if isWhitespaceChar c then
    ⟨SyntaxKind.Trivia, 1 + (rest.takeWhile isWhitespaceChar).length, ScanError.None⟩
  else if isLineBreakChar c then
    ⟨SyntaxKind.LineBreakTrivia, 1, ScanError.None⟩
  else if c = '{' then ⟨SyntaxKind.OpenBraceToken, 1, ScanError.None⟩
  else if c = '}' then ⟨SyntaxKind.CloseBraceToken, 1, ScanError.None⟩
  else if c = '[' then ⟨SyntaxKind.OpenBracketToken, 1, ScanError.None⟩
  else if c = ']' then ⟨SyntaxKind.CloseBracketToken, 1, ScanError.None⟩
  else if c = ':' then ⟨SyntaxKind.ColonToken, 1, ScanError.None⟩
  else if c = ',' then ⟨SyntaxKind.CommaToken, 1, ScanError.None⟩
  else if c = '"' then
    ⟨SyntaxKind.StringLiteral, (scanStringRest rest 1 false).1, (scanStringRest rest 1 false).2⟩
  else if c = '/' then
    if rest.head? = some '/' then
      ⟨SyntaxKind.LineCommentTrivia,
        2 + ((rest.drop 1).takeWhile (fun ch => !isLineBreakChar ch)).length,
        ScanError.None⟩
    else if rest.head? = some '*' then
      ⟨SyntaxKind.BlockCommentTrivia, (scanBlockRest (rest.drop 1) 2 false).1,
        (scanBlockRest (rest.drop 1) 2 false).2⟩
    else ⟨SyntaxKind.Unknown, 1, ScanError.None⟩
  else if c.isDigit || c = '-' then
    ⟨SyntaxKind.NumericLiteral, numLen (c :: rest), ScanError.None⟩
  else if c.isAlpha then
    ⟨keywordKind ((c :: rest).takeWhile Char.isAlpha),
      ((c :: rest).takeWhile Char.isAlpha).length, ScanError.None⟩
  else ⟨SyntaxKind.Unknown, 1, ScanError.None⟩

/-- Modelled from the spec: the external Line Scanner collaborator
(jsonc-parser `createScanner`, not part of this repository's sources).
Given the line's characters and the current cursor position, one `scan`
call yields the next primitive token kind, the new cursor position, and
the token's scan error; at the end of input it yields `EOF` without
moving. -/
def scanStep (cs : List Char) (pos : Nat) : ScanStep :=
  match cs.drop pos with
  | [] => ⟨SyntaxKind.EOF, pos, ScanError.None⟩
  | c :: rest =>
    ⟨(scanTok c rest).1, pos + (scanTok c rest).2.1, (scanTok c rest).2.2⟩

/-- Highlight category for object braces. -/
def TOKEN_DELIM_OBJECT : String := "delimiter.bracket.json"

/-- Highlight category for array brackets. -/
def TOKEN_DELIM_ARRAY : String := "delimiter.array.json"

/-- Highlight category for the colon. -/
def TOKEN_DELIM_COLON : String := "delimiter.colon.json"

/-- Highlight category for the comma. -/
def TOKEN_DELIM_COMMA : String := "delimiter.comma.json"

/-- Highlight category for true and false. -/
def TOKEN_VALUE_BOOLEAN : String := "keyword.json"

/-- Highlight category for null. -/
def TOKEN_VALUE_NULL : String := "keyword.json"

/-- Highlight category for a string in value position. -/
def TOKEN_VALUE_STRING : String := "string.value.json"

/-- Highlight category for a numeric literal. -/
def TOKEN_VALUE_NUMBER : String := "number.json"

/-- Highlight category for a string in property-name position. -/
def TOKEN_PROPERTY_NAME : String := "string.key.json"

/-- Highlight category for a block comment. -/
def TOKEN_COMMENT_BLOCK : String := "comment.block.json"

/-- Highlight category for a line comment. -/
def TOKEN_COMMENT_LINE : String := "comment.line.json"

/-- The carried-over tokenizer state (source class `JSONState`).
`_state` is the opaque host-owned value; `scanError` is `Option`-valued
because the source distinguishes the JS `null` stored by the
initial-state factory from a genuine `ScanError` enum value stored after
scanning a token. -/
structure JSONState (σ : Type) where
  _state : Option σ
  scanError : Option ScanError
  lastWasColon : Bool
  parents : List JSONParent
deriving DecidableEq

/-- Element-wise tail of the source's index loop in `areArraysEqual`. -/
def elementsEqual : List JSONParent → List JSONParent → Bool
  | [], [] => true
  | a :: as, b :: bs => a == b && elementsEqual as bs
  | _, _ => false

/-- Source `JSONState.areArraysEqual`: compare lengths first, then
elements in order.  (The reference-identity and null short-circuits of
the JS code are not representable for Lean lists; they only ever return
`true` for structurally equal inputs.) -/
def areArraysEqual (first second : List JSONParent) : Bool :=
  if first.length != second.length then false
  else elementsEqual first second

/-- Source `JSONState.equals`: compare `scanError`, `lastWasColon` and
`parents`; `_state` is not consulted. -/
def JSONState.equals {σ : Type} (a b : JSONState σ) : Bool :=
  decide (a.scanError = b.scanError) && (a.lastWasColon == b.lastWasColon)
    && areArraysEqual a.parents b.parents

/-- Source `JSONState.clone`: a new state with the same four fields. -/
def JSONState.clone {σ : Type} (s : JSONState σ) : JSONState σ :=
  ⟨s._state, s.scanError, s.lastWasColon, s.parents⟩

/-- One emitted token: a start offset and a highlight category. -/
structure IToken where
  startIndex : Int
  scopes : String
deriving DecidableEq, Repr

/-- Result of a tokenize call: the token list and end state on normal
completion, the thrown message when the scanner fails to advance, or
`diverged` when the embedding's fuel is exhausted (unreachable for a
strictly advancing scanner). -/
inductive TokenizeResult (σ : Type) where
| ok (tokens : List IToken) (endState : JSONState σ)
| error (message : String)
| diverged
deriving DecidableEq

/-- The first few characters of `line` starting at `pos`
(JS `line.substr(pos, n)`), used in the non-advancing-scanner message. -/
def substrN (line : List Char) (pos n : Nat) : String :=
  String.mk ((line.drop pos).take n)

/-- The per-token classification switch of `tokenize` (source lines
172-235): given the comments flag, the token kind and the working
`lastWasColon` and `parents`, produce the token's type string and the
updated working values.  The comment switch only overrides the type
string, and only when `comments` is true. -/
def classifyToken (comments : Bool) (kind : SyntaxKind) (lastWasColon : Bool)
    (parents : List JSONParent) : String × Bool × List JSONParent :=
  let r : String × Bool × List JSONParent :=
    match kind with
    | SyntaxKind.OpenBraceToken =>
      (TOKEN_DELIM_OBJECT, false, parents.concat JSONParent.Object)
    | SyntaxKind.CloseBraceToken =>
      (TOKEN_DELIM_OBJECT, false, parents.dropLast)
    | SyntaxKind.OpenBracketToken =>
      (TOKEN_DELIM_ARRAY, false, parents.concat JSONParent.Array)
    | SyntaxKind.CloseBracketToken =>
      (TOKEN_DELIM_ARRAY, false, parents.dropLast)
    | SyntaxKind.ColonToken => (TOKEN_DELIM_COLON, true, parents)
    | SyntaxKind.CommaToken => (TOKEN_DELIM_COMMA, false, parents)
    | SyntaxKind.TrueKeyword => (TOKEN_VALUE_BOOLEAN, false, parents)
    | SyntaxKind.FalseKeyword => (TOKEN_VALUE_BOOLEAN, false, parents)
    | SyntaxKind.NullKeyword => (TOKEN_VALUE_NULL, false, parents)
    | SyntaxKind.StringLiteral =>
      let currentParent := parents.getLast?.getD JSONParent.Object
      let inArray := decide (currentParent = JSONParent.Array)
      ((if lastWasColon || inArray then TOKEN_VALUE_STRING else TOKEN_PROPERTY_NAME),
        false, parents)
    | SyntaxKind.NumericLiteral => (TOKEN_VALUE_NUMBER, false, parents)
    | _ => ("", lastWasColon, parents)
  if comments then
    match kind with
    | SyntaxKind.LineCommentTrivia => (TOKEN_COMMENT_LINE, r.2.1, r.2.2)
    | SyntaxKind.BlockCommentTrivia => (TOKEN_COMMENT_BLOCK, r.2.1, r.2.2)
    | _ => r
  else r

/-- The `while (true)` scan loop of `tokenize` (source lines 147-247),
parameterised over the scanner's `scan` step (a function of the cursor
position).  `fuel` makes the recursion structural; `diverged` marks
exhaustion and is unreachable for a strictly advancing scanner. -/
def tokenizeLoop {σ : Type} (comments : Bool) (scan : Nat → ScanStep) (line : List Char)
    (hostState : Option σ) (offsetDelta : Int) (numberOfInsertedCharacters : Nat) :
    Nat → Nat → Bool → List JSONParent → Bool → JSONState σ → List IToken →
    TokenizeResult σ
  | 0, _, _, _, _, _, _ => TokenizeResult.diverged
  | fuel + 1, pos, lastWasColon, parents, adjustOffset, endState, acc =>
    let offset : Int := offsetDelta + pos
    let step := scan pos
    if step.kind = SyntaxKind.EOF then
      TokenizeResult.ok acc.reverse endState
    else if offset = offsetDelta + (step.pos : Int) then
      TokenizeResult.error
        ("Scanner did not advance, next 3 characters are: " ++ substrN line step.pos 3)
    else
      let offset2 : Int :=
        if adjustOffset then offset - numberOfInsertedCharacters else offset
      let adjustOffset2 : Bool := decide (0 < numberOfInsertedCharacters)
      let c := classifyToken comments step.kind lastWasColon parents
      let endState2 : JSONState σ :=
        ⟨hostState, some step.error, c.2.1, c.2.2⟩
      tokenizeLoop comments scan line hostState offsetDelta numberOfInsertedCharacters
        fuel step.pos c.2.1 c.2.2 adjustOffset2 endState2 (⟨offset2, c.1⟩ :: acc)

/-- The recovery prefix and inserted-character count chosen by
`tokenize` from the incoming state's scan error (source lines 124-136). -/
def insertedOf (e : Option ScanError) : List Char × Nat :=
  match e with
  | some ScanError.UnexpectedEndOfString => (['"'], 1)
  | some ScanError.UnexpectedEndOfComment => (['/', '*'], 2)
  | _ => ([], 0)

/-- Source `tokenize` (lines 116-250): choose the recovery prefix from
the incoming state's scan error, create a scanner over the (possibly
prefixed) line, and run the scan loop.  `stopAtOffset` is accepted but,
as in the source, never read. -/
def tokenize {σ : Type} (comments : Bool) (line : String) (state : JSONState σ)
    (offsetDelta : Int) (stopAtOffset : Option Int) : TokenizeResult σ :=
  let pre := insertedOf state.scanError
  let lineChars := pre.1 ++ line.toList
  tokenizeLoop comments (scanStep lineChars) lineChars state._state offsetDelta pre.2
    (lineChars.length + 1) 0 state.lastWasColon state.parents false state.clone []

/-- The initial-state factory (source line 13):
`new JSONState(null, null, false, [])`. -/
def getInitialState (σ : Type) : JSONState σ :=
  ⟨none, none, false, []⟩

/-- The record returned by `createTokenizationSupport`. -/
structure TokensProvider (σ : Type) where
  getInitialState : Unit → JSONState σ
  tokenize : String → JSONState σ → Int → Option Int → TokenizeResult σ

/-- Source `createTokenizationSupport`: fixes the comments flag for the
session and exposes the initial-state factory and per-line tokenize. -/
def createTokenizationSupport (σ : Type) (supportComments : Bool) : TokensProvider σ :=
  ⟨fun _ => getInitialState σ,
    fun line state offsetDelta stopAtOffset =>
      tokenize supportComments line state offsetDelta stopAtOffset⟩

/-- The trace of the scan loop: the list of (position before the scan,
scan result) pairs for the non-end-of-input tokens, cut off at a
non-advancing scan (where the loop aborts) or at fuel exhaustion. -/
def scanSeq (scan : Nat → ScanStep) : Nat → Nat → List (Nat × ScanStep)
  | 0, _ => []
  | fuel + 1, pos =>
    let step := scan pos
    if step.kind = SyntaxKind.EOF then []
    else if step.pos = pos then []
    else (pos, step) :: scanSeq scan fuel step.pos

/-- The start positions (in the scanned character list) of the tokens
produced by a full scan of `cs`. -/
def scanStarts (cs : List Char) : List Nat :=
  (scanSeq (scanStep cs) (cs.length + 1) 0).map Prod.fst

/-- The offsets emitted by the scan loop for tokens whose scans start at
the given positions: `δ + p`, reduced by the inserted-character count
`N` for every token scanned while the adjust flag is set — that is, for
every token after the first whenever `N > 0`. -/
def adjustedOffsets (δ : Int) (N : Nat) : Bool → List Nat → List Int
  | _, [] => []
  | a, p :: ps =>
    ((δ + p) - (if a then (N : Int) else 0)) :: adjustedOffsets δ N (decide (0 < N)) ps

/-- Heap of bracket-stack arrays for the aliasing-aware model: a
reference is an index into this list. -/
def ParentsHeap : Type := List (List JSONParent)

/-- Read the array behind a reference. -/
def ParentsHeap.read (h : ParentsHeap) (r : Nat) : List JSONParent :=
  List.getD h r []

/-- Allocate a fresh array, returning the extended heap and the fresh
reference. -/
def ParentsHeap.alloc (h : ParentsHeap) (v : List JSONParent) : ParentsHeap × Nat :=
  (List.concat h v, List.length h)

/-- Overwrite the array behind a reference (in-place mutation). -/
def ParentsHeap.write (h : ParentsHeap) (r : Nat) (v : List JSONParent) : ParentsHeap :=
  List.set h r v

/-- `JSONState` in the aliasing-aware model: `parents` is a reference
into the heap, as the JS object holds a reference to a shared array. -/
structure JSONStateRef (σ : Type) where
  _state : Option σ
  scanError : Option ScanError
  lastWasColon : Bool
  parentsRef : Nat
deriving DecidableEq

/-- Source `JSONState.clone` in the aliasing-aware model: the fields are
copied, so the clone shares the `parents` array reference. -/
def JSONStateRef.clone {σ : Type} (s : JSONStateRef σ) : JSONStateRef σ :=
  ⟨s._state, s.scanError, s.lastWasColon, s.parentsRef⟩

/-- Result of a tokenize call in the aliasing-aware model. -/
inductive TokenizeResultRef (σ : Type) where
| ok (tokens : List IToken) (endState : JSONStateRef σ)
| error (message : String)
| diverged
deriving DecidableEq

/-- The scan loop of `tokenize` in the aliasing-aware model: the working
bracket stack lives behind `workRef` and every push/pop is an in-place
write to it; each rebuilt end state shares `workRef`. -/
def tokenizeLoopHeap {σ : Type} (comments : Bool) (scan : Nat → ScanStep) (line : List Char)
    (hostState : Option σ) (offsetDelta : Int) (numberOfInsertedCharacters : Nat)
    (workRef : Nat) :
    Nat → Nat → Bool → Bool → ParentsHeap → JSONStateRef σ → List IToken →
    ParentsHeap × TokenizeResultRef σ
  | 0, _, _, _, heap, _, _ => (heap, TokenizeResultRef.diverged)
  | fuel + 1, pos, lastWasColon, adjustOffset, heap, endState, acc =>
    let offset : Int := offsetDelta + pos
    let step := scan pos
    if step.kind = SyntaxKind.EOF then
      (heap, TokenizeResultRef.ok acc.reverse endState)
    else if offset = offsetDelta + (step.pos : Int) then
      (heap, TokenizeResultRef.error
        ("Scanner did not advance, next 3 characters are: " ++ substrN line step.pos 3))
    else
      let offset2 : Int :=
        if adjustOffset then offset - numberOfInsertedCharacters else offset
      let adjustOffset2 : Bool := decide (0 < numberOfInsertedCharacters)
      let c := classifyToken comments step.kind lastWasColon (heap.read workRef)
      let heap2 := heap.write workRef c.2.2
      let endState2 : JSONStateRef σ := ⟨hostState, some step.error, c.2.1, workRef⟩
      tokenizeLoopHeap comments scan line hostState offsetDelta numberOfInsertedCharacters
        workRef fuel step.pos c.2.1 adjustOffset2 heap2 endState2 (⟨offset2, c.1⟩ :: acc)

/-- Source `tokenize` in the aliasing-aware model: the working stack is
a fresh copy of the incoming state's array (`Array.from(state.parents)`)
allocated on the heap; the incoming state's own array is never written.
The initial end state is the incoming state's clone, which shares the
incoming array reference. -/
def tokenizeHeap {σ : Type} (comments : Bool) (line : String) (state : JSONStateRef σ)
    (offsetDelta : Int) (stopAtOffset : Option Int) (heap : ParentsHeap) :
    ParentsHeap × TokenizeResultRef σ :=
  let pre := insertedOf state.scanError
  let lineChars := pre.1 ++ line.toList
  let alloc := heap.alloc (heap.read state.parentsRef)
  tokenizeLoopHeap comments (scanStep lineChars) lineChars state._state offsetDelta pre.2
    alloc.2 (lineChars.length + 1) 0 state.lastWasColon false alloc.1 state.clone []

/-! ## Helper lemmas -/

theorem elementsEqual_iff (l1 l2 : List JSONParent) :
    elementsEqual l1 l2 = true ↔ l1 = l2 := by
  induction l1 generalizing l2 with
  | nil => cases l2 <;> simp [elementsEqual]
  | cons a as ih =>
    cases l2 with
    | nil => simp [elementsEqual]
    | cons b bs => simp [elementsEqual, ih, beq_iff_eq, And.comm]

theorem areArraysEqual_iff (l1 l2 : List JSONParent) :
    areArraysEqual l1 l2 = true ↔ l1 = l2 := by
  unfold areArraysEqual
  split
  · constructor
    · intro h
      exact absurd h (by simp)
    · intro h
      subst h
      simp_all
  · exact elementsEqual_iff l1 l2

theorem equals_eq_true_iff {σ : Type} (a b : JSONState σ) :
    JSONState.equals a b = true ↔
      a.scanError = b.scanError ∧ a.lastWasColon = b.lastWasColon ∧ a.parents = b.parents := by
  unfold JSONState.equals
  simp [areArraysEqual_iff, and_assoc]

/-! ## Claim theorems -/

/-- C5: `equals` returns true exactly when the two states agree on
`scanError` (pendingError), `lastWasColon` (afterColon) and `parents`
(the bracket stack, element-wise); a state equals itself (the
reference-identity short-circuit can only ever fire on states that are
equal anyway); and the `_state` field (opaqueHostState) never influences
the result. -/
theorem c5_equals_contract (σ : Type) (a b : JSONState σ) :
    (JSONState.equals a b = true ↔
      a.scanError = b.scanError ∧ a.lastWasColon = b.lastWasColon ∧ a.parents = b.parents)
    ∧ JSONState.equals a a = true
    ∧ (∀ s1 s2 : Option σ,
        JSONState.equals ⟨s1, a.scanError, a.lastWasColon, a.parents⟩
            ⟨s2, b.scanError, b.lastWasColon, b.parents⟩
          = JSONState.equals a b) := by
  refine ⟨equals_eq_true_iff a b, ?_, fun s1 s2 => rfl⟩
  exact (equals_eq_true_iff a a).mpr ⟨rfl, rfl, rfl⟩

/-- C7: tokenizing the empty line with the state produced by the
initial-state factory yields an empty token list and an end state that
the state equality operation reports equal to the initial state. -/
theorem c7_empty_line_initial (σ : Type) (c : Bool) :
    tokenize c "" (getInitialState σ) 0 none
        = TokenizeResult.ok [] (getInitialState σ)
    ∧ ((getInitialState σ).clone).equals (getInitialState σ) = true :=
  ⟨rfl, rfl⟩

/-- C1: a string-literal token is classified property-name exactly when
the working afterColon flag is false and the innermost entry of the
working bracket stack (defaulting to Object on an empty stack) is
Object; otherwise (afterColon true, or innermost container Array) it is
classified value-string; afterwards afterColon is false and the stack is
unchanged.  Concretely, for the line `["x"]` the string token is
classified value-string. -/
theorem c1_string_classification :
    (∀ (comments lastWasColon : Bool) (parents : List JSONParent),
      ((classifyToken comments SyntaxKind.StringLiteral lastWasColon parents).1
          = TOKEN_PROPERTY_NAME ↔
        lastWasColon = false ∧ parents.getLast?.getD JSONParent.Object = JSONParent.Object)
      ∧ ((classifyToken comments SyntaxKind.StringLiteral lastWasColon parents).1
          = TOKEN_VALUE_STRING ↔
        lastWasColon = true ∨ parents.getLast?.getD JSONParent.Object = JSONParent.Array)
      ∧ (classifyToken comments SyntaxKind.StringLiteral lastWasColon parents).2.1 = false
      ∧ (classifyToken comments SyntaxKind.StringLiteral lastWasColon parents).2.2 = parents)
    ∧ tokenize false "[\"x\"]" (getInitialState Unit) 0 none
        = TokenizeResult.ok
            [⟨0, TOKEN_DELIM_ARRAY⟩, ⟨1, TOKEN_VALUE_STRING⟩, ⟨4, TOKEN_DELIM_ARRAY⟩]
            ⟨none, some ScanError.None, false, []⟩ := by
  constructor
  · intro comments lastWasColon parents
    cases comments <;> cases lastWasColon <;>
      cases h : parents.getLast?.getD JSONParent.Object <;>
        simp [classifyToken, h, TOKEN_PROPERTY_NAME, TOKEN_VALUE_STRING]
  · rfl

/-- C8: a line-comment (resp. block-comment) trivia token is classified
comment-line (resp. comment-block) exactly when the session-wide
comments flag is true, and with the flag false its category stays the
empty string; in either case afterColon and the bracket stack are left
unchanged.  The flag is fixed at construction: the provider built by
`createTokenizationSupport` always passes its construction-time flag to
`tokenize`.  Concretely, `// hi` yields category comment-line at offset
0 with comments enabled and the empty category with comments
disabled. -/
theorem c8_comment_gating :
    (∀ (lc : Bool) (ps : List JSONParent),
      classifyToken true SyntaxKind.LineCommentTrivia lc ps = (TOKEN_COMMENT_LINE, lc, ps)
      ∧ classifyToken false SyntaxKind.LineCommentTrivia lc ps = ("", lc, ps)
      ∧ classifyToken true SyntaxKind.BlockCommentTrivia lc ps = (TOKEN_COMMENT_BLOCK, lc, ps)
      ∧ classifyToken false SyntaxKind.BlockCommentTrivia lc ps = ("", lc, ps))
    ∧ (∀ (σ : Type) (c : Bool) (line : String) (st : JSONState σ) (δ : Int)
        (stop : Option Int),
      (createTokenizationSupport σ c).tokenize line st δ stop = tokenize c line st δ stop)
    ∧ tokenize false "// hi" (getInitialState Unit) 0 none
        = TokenizeResult.ok [⟨0, ""⟩] ⟨none, some ScanError.None, false, []⟩
    ∧ tokenize true "// hi" (getInitialState Unit) 0 none
        = TokenizeResult.ok [⟨0, TOKEN_COMMENT_LINE⟩] ⟨none, some ScanError.None, false, []⟩ := by
  refine ⟨fun lc ps => ⟨rfl, rfl, rfl, rfl⟩, fun σ c line st δ stop => rfl, rfl, rfl⟩

/-- C3 counterexample: for the line `{"a":1}` from the initial state
with stopAtOffset = 4 (the colon's offset), the returned token list is
not truncated to the tokens scanned strictly before offset 4: it
contains all five tokens, among them ones at offsets 4, 5 and 6. -/
theorem c3_stopAtOffset_counterexample :
    tokenize false "\x7b\"a\":1\x7d" (getInitialState Unit) 0 (some 4)
        = TokenizeResult.ok
            [⟨0, TOKEN_DELIM_OBJECT⟩, ⟨1, TOKEN_PROPERTY_NAME⟩, ⟨4, TOKEN_DELIM_COLON⟩,
              ⟨5, TOKEN_VALUE_NUMBER⟩, ⟨6, TOKEN_DELIM_OBJECT⟩]
            ⟨none, some ScanError.None, false, []⟩
    ∧ ¬ (∀ t ∈ [(⟨0, TOKEN_DELIM_OBJECT⟩ : IToken), ⟨1, TOKEN_PROPERTY_NAME⟩,
          ⟨4, TOKEN_DELIM_COLON⟩, ⟨5, TOKEN_VALUE_NUMBER⟩, ⟨6, TOKEN_DELIM_OBJECT⟩],
        t.startIndex < 4) := by
  constructor
  · rfl
  · intro h
    have h4 := h ⟨4, TOKEN_DELIM_COLON⟩ (by simp)
    simp at h4

/-- C3 amended: `stopAtOffset` is accepted but never read; a tokenize
call with any stopAtOffset returns exactly the same result as the call
without it, so the token list is not truncated at that offset. -/
theorem c3_stopAtOffset_ignored (σ : Type) (c : Bool) (line : String)
    (st : JSONState σ) (δ : Int) (k : Int) :
    tokenize c line st δ (some k) = tokenize c line st δ none := rfl

/-- Any successful run of the scan loop either performed no iteration
(returning the seed tokens and seed end state) or returned an end state
rebuilt from a scanned token, whose `scanError` is a genuine scanner
error code. -/
theorem tokenizeLoop_ok_endState {σ : Type} (c : Bool) (scan : Nat → ScanStep)
    (line : List Char) (h : Option σ) (δ : Int) (N : Nat) :
    ∀ (fuel pos : Nat) (lc : Bool) (ps : List JSONParent) (a : Bool)
      (endSt : JSONState σ) (acc toks : List IToken) (st : JSONState σ),
      tokenizeLoop c scan line h δ N fuel pos lc ps a endSt acc
          = TokenizeResult.ok toks st →
      (toks = acc.reverse ∧ st = endSt)
      ∨ ∃ (e : ScanError) (lc2 : Bool) (ps2 : List JSONParent), st = ⟨h, some e, lc2, ps2⟩ := by
  intro fuel
  induction fuel with
  | zero =>
    intro pos lc ps a endSt acc toks st hok
    simp [tokenizeLoop] at hok
  | succ fuel ih =>
    intro pos lc ps a endSt acc toks st hok
    rw [tokenizeLoop] at hok
    split at hok
    · left
      exact ⟨(TokenizeResult.ok.inj hok).1.symm, (TokenizeResult.ok.inj hok).2.symm⟩
    · split at hok
      · exact absurd hok (by simp)
      · rcases ih _ _ _ _ _ _ _ _ hok with ⟨_, hst⟩ | hr
        · right
          exact ⟨(scan pos).error, _, _, hst⟩
        · right
          exact hr

/-- C10: the initial-state factory stores the host null in
`scanError`, while the end state of any call that scanned at least one
token stores a genuine scanner error code (`some _`); hence such an end
state is never `equals`-equal to the initial state. -/
theorem c10_endState_never_initial (σ : Type) (c : Bool) (line : String)
    (st0 : JSONState σ) (δ : Int) (stop : Option Int) (toks : List IToken)
    (st : JSONState σ)
    (h1 : tokenize c line st0 δ stop = TokenizeResult.ok toks st)
    (h2 : toks ≠ []) :
    st.equals (getInitialState σ) = false
    ∧ (∃ e : ScanError, st.scanError = some e)
    ∧ (getInitialState σ).scanError = none := by
  have hcases := tokenizeLoop_ok_endState c
    (scanStep ((insertedOf st0.scanError).1 ++ line.toList))
    ((insertedOf st0.scanError).1 ++ line.toList) st0._state δ (insertedOf st0.scanError).2
    (((insertedOf st0.scanError).1 ++ line.toList).length + 1) 0 st0.lastWasColon st0.parents
    false st0.clone [] toks st h1
  rcases hcases with ⟨htoks, _⟩ | ⟨e, lc2, ps2, hst⟩
  · simp at htoks
    exact absurd htoks h2
  · subst hst
    refine ⟨?_, ⟨e, rfl⟩, rfl⟩
    have : ¬ (some e = (none : Option ScanError)) := by simp
    simp [JSONState.equals, getInitialState, this]

/-- C10 witness: tokenizing the line `1` from the initial state yields
one token, and the resulting end state (which stores the scanner's None
error code) is not `equals`-equal to the initial state. -/
theorem c10_witness :
    (⟨none, some ScanError.None, false, []⟩ : JSONState Unit).equals
        (getInitialState Unit) = false
    ∧ (∃ e : ScanError,
        (⟨none, some ScanError.None, false, []⟩ : JSONState Unit).scanError = some e)
    ∧ (getInitialState Unit).scanError = none :=
  c10_endState_never_initial Unit false "1" (getInitialState Unit) 0 none
    [⟨0, TOKEN_VALUE_NUMBER⟩] ⟨none, some ScanError.None, false, []⟩ rfl (by decide)

theorem takeWhile_len_le (p : Char → Bool) (l : List Char) :
    (l.takeWhile p).length ≤ l.length :=
  List.Sublist.length_le (List.takeWhile_sublist p)

theorem takeWhile_len_pos (p : Char → Bool) {c : Char} (l : List Char) (h : p c = true) :
    0 < ((c :: l).takeWhile p).length := by
  simp [List.takeWhile_cons, h]

theorem digitsLen_le (l : List Char) : digitsLen l ≤ l.length :=
  takeWhile_len_le Char.isDigit l

theorem head?_some_length {c : Char} {l : List Char} (h : l.head? = some c) :
    1 ≤ l.length := by
  cases l with
  | nil => simp at h
  | cons _ _ => simp

theorem expTail_le (l : List Char) : expTail l ≤ l.length := by
  unfold expTail
  split
  · split
    · rename_i hh _
      have h1 : 1 ≤ l.length := by
        rcases hh with hh | hh
        · exact head?_some_length hh
        · exact head?_some_length hh
      have h2 := digitsLen_le (l.drop 1)
      rw [List.length_drop] at h2
      omega
    · omega
  · exact digitsLen_le l

theorem expPart_le (l : List Char) : expPart l ≤ l.length := by
  unfold expPart
  split
  · split
    · rename_i hh _
      have h1 : 1 ≤ l.length := by
        rcases hh with hh | hh
        · exact head?_some_length hh
        · exact head?_some_length hh
      have h2 := expTail_le (l.drop 1)
      rw [List.length_drop] at h2
      omega
    · omega
  · omega

theorem intLen_le (l : List Char) : intLen l ≤ l.length := by
  unfold intLen
  split
  · rename_i hh
    have h1 : 1 ≤ l.length := head?_some_length hh
    have h2 := digitsLen_le (l.drop 1)
    rw [List.length_drop] at h2
    omega
  · exact digitsLen_le l

theorem fracLen_le (l : List Char) : fracLen l ≤ l.length := by
  unfold fracLen
  split
  · rename_i hh
    have h1 : 1 ≤ l.length := head?_some_length hh.1
    have h2 := digitsLen_le (l.drop 1)
    rw [List.length_drop] at h2
    omega
  · omega

theorem numLen_le (l : List Char) : numLen l ≤ l.length := by
  unfold numLen
  have h1 := intLen_le l
  have h2 := fracLen_le (l.drop (intLen l))
  rw [List.length_drop] at h2
  have h3 := expPart_le ((l.drop (intLen l)).drop (fracLen (l.drop (intLen l))))
  rw [List.length_drop, List.length_drop] at h3
  omega

theorem numLen_pos {c : Char} (rest : List Char) (h : c.isDigit || c = '-') :
    0 < numLen (c :: rest) := by
  have h1 : 0 < intLen (c :: rest) := by
    unfold intLen
    split
    · omega
    · rename_i hno
      simp at hno h
      rcases h with h | h
      · exact takeWhile_len_pos Char.isDigit rest h
      · exact absurd h hno
  unfold numLen
  omega

theorem scanStringRest_bounds (l : List Char) :
    ∀ (p : Nat) (esc : Bool),
      p ≤ (scanStringRest l p esc).1 ∧ (scanStringRest l p esc).1 ≤ p + l.length := by
  induction l with
  | nil => intro p esc; simp [scanStringRest]
  | cons c rest ih =>
    intro p esc
    rw [scanStringRest]
    split
    · have := ih (p + 1) false
      simp only [List.length_cons]
      omega
    · split
      · simp only [List.length_cons]
        omega
      · split
        · have := ih (p + 1) true
          simp only [List.length_cons]
          omega
        · have := ih (p + 1) false
          simp only [List.length_cons]
          omega

theorem scanBlockRest_bounds (l : List Char) :
    ∀ (p : Nat) (ps : Bool),
      p ≤ (scanBlockRest l p ps).1 ∧ (scanBlockRest l p ps).1 ≤ p + l.length := by
  induction l with
  | nil => intro p ps; simp [scanBlockRest]
  | cons c rest ih =>
    intro p ps
    rw [scanBlockRest]
    split
    · simp only [List.length_cons]
      omega
    · have := ih (p + 1) (decide (c = '*'))
      simp only [List.length_cons]
      omega

theorem keywordKind_ne_eof (w : List Char) : keywordKind w ≠ SyntaxKind.EOF := by
  unfold keywordKind
  split
  · simp
  · split
    · simp
    · split <;> simp

theorem scanStep_eof (cs : List Char) (pos : Nat) (h : cs.length ≤ pos) :
    scanStep cs pos = ⟨SyntaxKind.EOF, pos, ScanError.None⟩ := by
  have hnil : cs.drop pos = [] := List.drop_eq_nil_of_le h
  rw [scanStep, hnil]

theorem scanTok_bounds (c : Char) (rest : List Char) :
    0 < (scanTok c rest).2.1 ∧ (scanTok c rest).2.1 ≤ 1 + rest.length
    ∧ (scanTok c rest).1 ≠ SyntaxKind.EOF := by
  unfold scanTok
  by_cases h01 : isWhitespaceChar c = true
  · rw [if_pos h01]
    have hws := takeWhile_len_le isWhitespaceChar rest
    dsimp only
    exact ⟨by omega, by omega, by decide⟩
  rw [if_neg h01]
  by_cases h02 : isLineBreakChar c = true
  · rw [if_pos h02]
    dsimp only
    exact ⟨by omega, by omega, by decide⟩
  rw [if_neg h02]
  by_cases h03 : c = '{'
  · rw [if_pos h03]
    dsimp only
    exact ⟨by omega, by omega, by decide⟩
  rw [if_neg h03]
  by_cases h04 : c = '}'
  · rw [if_pos h04]
    dsimp only
    exact ⟨by omega, by omega, by decide⟩
  rw [if_neg h04]
  by_cases h05 : c = '['
  · rw [if_pos h05]
    dsimp only
    exact ⟨by omega, by omega, by decide⟩
  rw [if_neg h05]
  by_cases h06 : c = ']'
  · rw [if_pos h06]
    dsimp only
    exact ⟨by omega, by omega, by decide⟩
  rw [if_neg h06]
  by_cases h07 : c = ':'
  · rw [if_pos h07]
    dsimp only
    exact ⟨by omega, by omega, by decide⟩
  rw [if_neg h07]
  by_cases h08 : c = ','
  · rw [if_pos h08]
    dsimp only
    exact ⟨by omega, by omega, by decide⟩
  rw [if_neg h08]
  by_cases h09 : c = '"'
  · rw [if_pos h09]
    have hstr := scanStringRest_bounds rest 1 false
    dsimp only
    exact ⟨by omega, by omega, by decide⟩
  rw [if_neg h09]
  by_cases h10 : c = '/'
  · rw [if_pos h10]
    by_cases h10a : rest.head? = some '/'
    · rw [if_pos h10a]
      have hr1 : 1 ≤ rest.length := head?_some_length h10a
      have hlc := takeWhile_len_le (fun ch => !isLineBreakChar ch) (rest.drop 1)
      rw [List.length_drop] at hlc
      dsimp only
      exact ⟨by omega, by omega, by decide⟩
    rw [if_neg h10a]
    by_cases h10b : rest.head? = some '*'
    · rw [if_pos h10b]
      have hr1 : 1 ≤ rest.length := head?_some_length h10b
      have hblk := scanBlockRest_bounds (rest.drop 1) 2 false
      rw [List.length_drop] at hblk
      dsimp only
      exact ⟨by omega, by omega, by decide⟩
    rw [if_neg h10b]
    dsimp only
    exact ⟨by omega, by omega, by decide⟩
  rw [if_neg h10]
  by_cases h11 : (c.isDigit || c = '-') = true
  · rw [if_pos h11]
    have hp := numLen_pos rest h11
    have hnle := numLen_le (c :: rest)
    rw [List.length_cons] at hnle
    dsimp only
    exact ⟨by omega, by omega, by decide⟩
  rw [if_neg h11]
  by_cases h12 : c.isAlpha = true
  · rw [if_pos h12]
    have hp := takeWhile_len_pos Char.isAlpha rest h12
    have hkle := takeWhile_len_le Char.isAlpha (c :: rest)
    rw [List.length_cons] at hkle
    dsimp only
    exact ⟨by omega, by omega, keywordKind_ne_eof _⟩
  rw [if_neg h12]
  dsimp only
  exact ⟨by omega, by omega, by decide⟩

theorem scanStep_cons {cs : List Char} {pos : Nat} {c : Char} {rest : List Char}
    (h : cs.drop pos = c :: rest) :
    scanStep cs pos
      = ⟨(scanTok c rest).1, pos + (scanTok c rest).2.1, (scanTok c rest).2.2⟩ := by
  rw [scanStep, h]

theorem scanStep_advance (cs : List Char) (pos : Nat) (h : pos < cs.length) :
    pos < (scanStep cs pos).pos ∧ (scanStep cs pos).pos ≤ cs.length
    ∧ (scanStep cs pos).kind ≠ SyntaxKind.EOF := by
  cases hdrop : cs.drop pos with
  | nil =>
    have hl := congrArg List.length hdrop
    simp [List.length_drop] at hl
    omega
  | cons c rest =>
    have hl := congrArg List.length hdrop
    simp [List.length_drop] at hl
    have hlen : pos + 1 + rest.length = cs.length := by omega
    rw [scanStep_cons hdrop]
    obtain ⟨hb1, hb2, hb3⟩ := scanTok_bounds c rest
    exact ⟨by dsimp only; omega, by dsimp only; omega, hb3⟩

theorem scanStep_hadv (cs : List Char) (p : Nat)
    (hk : (scanStep cs p).kind ≠ SyntaxKind.EOF) :
    p < (scanStep cs p).pos ∧ (scanStep cs p).pos ≤ cs.length := by
  by_cases hp : p < cs.length
  · exact ⟨(scanStep_advance cs p hp).1, (scanStep_advance cs p hp).2.1⟩
  · rw [scanStep_eof cs p (by omega)] at hk
    exact absurd rfl hk

/-- A scanner that strictly advances on every non-end-of-input scan and
stays within the bound `L` makes the scan loop return normally given
enough fuel. -/
theorem tokenizeLoop_total_abs {σ : Type} (c : Bool) (scan : Nat → ScanStep)
    (line : List Char) (h : Option σ) (δ : Int) (N L : Nat)
    (hadv : ∀ p, (scan p).kind ≠ SyntaxKind.EOF → p < (scan p).pos ∧ (scan p).pos ≤ L) :
    ∀ (fuel pos : Nat) (lc : Bool) (ps : List JSONParent) (a : Bool)
      (endSt : JSONState σ) (acc : List IToken),
      L + 1 ≤ fuel + pos → pos ≤ L →
      ∃ toks st, tokenizeLoop c scan line h δ N fuel pos lc ps a endSt acc
          = TokenizeResult.ok toks st := by
  intro fuel
  induction fuel with
  | zero =>
    intro pos lc ps a endSt acc h1 h2
    omega
  | succ fuel ih =>
    intro pos lc ps a endSt acc h1 h2
    simp only [tokenizeLoop]
    by_cases hk : (scan pos).kind = SyntaxKind.EOF
    · rw [if_pos hk]
      exact ⟨acc.reverse, endSt, rfl⟩
    · obtain ⟨hlt, hle⟩ := hadv pos hk
      rw [if_neg hk, if_neg (by
        intro heq
        have hc : (pos : Int) = ((scan pos).pos : Int) := by omega
        have : pos = (scan pos).pos := by exact_mod_cast hc
        omega)]
      exact ih (scan pos).pos _ _ _ _ _ (by omega) hle

/-- C4: if a scan returns a non-end-of-input token without advancing the
position, the loop aborts at once with the diagnostic message containing
the next three characters at the stalled position; and whenever every
non-end-of-input scan strictly advances (within the line bound), the
loop terminates normally with a token list and end state. -/
theorem c4_scanner_guard :
    (∀ (σ : Type) (c : Bool) (scan : Nat → ScanStep) (line : List Char)
      (h : Option σ) (δ : Int) (N fuel pos : Nat) (lc : Bool) (ps : List JSONParent)
      (a : Bool) (endSt : JSONState σ) (acc : List IToken),
      (scan pos).kind ≠ SyntaxKind.EOF → (scan pos).pos = pos →
      tokenizeLoop c scan line h δ N (fuel + 1) pos lc ps a endSt acc
        = TokenizeResult.error
            ("Scanner did not advance, next 3 characters are: " ++ substrN line pos 3))
    ∧ (∀ (σ : Type) (c : Bool) (scan : Nat → ScanStep) (line : List Char)
      (h : Option σ) (δ : Int) (N L fuel pos : Nat) (lc : Bool) (ps : List JSONParent)
      (a : Bool) (endSt : JSONState σ) (acc : List IToken),
      (∀ p, (scan p).kind ≠ SyntaxKind.EOF → p < (scan p).pos ∧ (scan p).pos ≤ L) →
      L + 1 ≤ fuel + pos → pos ≤ L →
      ∃ toks st, tokenizeLoop c scan line h δ N fuel pos lc ps a endSt acc
          = TokenizeResult.ok toks st) := by
  constructor
  · intro σ c scan line h δ N fuel pos lc ps a endSt acc hk hpp
    simp only [tokenizeLoop]
    rw [if_neg hk, if_pos (by rw [hpp]), hpp]
  · intro σ c scan line h δ N L fuel pos lc ps a endSt acc hadv h1 h2
    exact tokenizeLoop_total_abs c scan line h δ N L hadv fuel pos lc ps a endSt acc h1 h2

/-- C4 witness: a stubbed scanner that reports a colon token without
moving from position 0 makes the loop abort with the three characters at
the stalled position in the message; and with the trivial end-of-input
scanner the loop returns normally. -/
theorem c4_witness :
    tokenizeLoop false (fun _ => ⟨SyntaxKind.ColonToken, 0, ScanError.None⟩)
        ['a', 'b', 'c', 'd'] (none : Option Unit) 0 0 1 0 false [] false
        (getInitialState Unit) []
      = TokenizeResult.error
          ("Scanner did not advance, next 3 characters are: "
            ++ substrN ['a', 'b', 'c', 'd'] 0 3)
    ∧ ∃ toks st,
        tokenizeLoop false (fun p => ⟨SyntaxKind.EOF, p, ScanError.None⟩) []
            (none : Option Unit) 0 0 1 0 false [] false (getInitialState Unit) []
          = TokenizeResult.ok toks st :=
  ⟨c4_scanner_guard.1 Unit false _ ['a', 'b', 'c', 'd'] none 0 0 0 0 false [] false
      (getInitialState Unit) [] (by decide) rfl,
    c4_scanner_guard.2 Unit false _ [] none 0 0 0 1 0 false [] false
      (getInitialState Unit) [] (fun p hk => absurd rfl hk) (by omega) (by omega)⟩

/-- C6: every tokenize call returns normally with a token list and end
state, whatever the line and incoming state (in particular for
structurally invalid input); a close brace or close bracket seen with an
empty working stack leaves the stack empty (pop on empty is a no-op).
Concretely, the unmatched line `]}` tokenizes fine and ends with an
empty stack. -/
theorem c6_no_failure_on_imbalance :
    (∀ (σ : Type) (c : Bool) (line : String) (st : JSONState σ) (δ : Int)
      (stop : Option Int),
      ∃ toks endSt, tokenize c line st δ stop = TokenizeResult.ok toks endSt)
    ∧ (∀ (c lc : Bool),
      classifyToken c SyntaxKind.CloseBraceToken lc [] = (TOKEN_DELIM_OBJECT, false, [])
      ∧ classifyToken c SyntaxKind.CloseBracketToken lc [] = (TOKEN_DELIM_ARRAY, false, []))
    ∧ tokenize false "]\x7d" (getInitialState Unit) 0 none
        = TokenizeResult.ok [⟨0, TOKEN_DELIM_ARRAY⟩, ⟨1, TOKEN_DELIM_OBJECT⟩]
            ⟨none, some ScanError.None, false, []⟩ := by
  refine ⟨?_, ?_, rfl⟩
  · intro σ c line st δ stop
    simp only [tokenize]
    exact tokenizeLoop_total_abs c _ _ st._state δ (insertedOf st.scanError).2
      ((insertedOf st.scanError).1 ++ line.toList).length
      (scanStep_hadv ((insertedOf st.scanError).1 ++ line.toList))
      (((insertedOf st.scanError).1 ++ line.toList).length + 1) 0 st.lastWasColon
      st.parents false st.clone [] (by omega) (by omega)
  · intro c lc
    cases c <;> exact ⟨rfl, rfl⟩

theorem getD_set_ne (ll : ParentsHeap) (i j : Nat) (v : List JSONParent) (hne : i ≠ j) :
    List.getD (List.set ll i v) j [] = List.getD ll j [] := by
  rw [List.getD_eq_getElem?_getD, List.getD_eq_getElem?_getD, List.getElem?_set_ne hne]

theorem getD_concat_lt (ll : ParentsHeap) (v : List JSONParent) (i : Nat)
    (h : i < List.length ll) :
    List.getD (List.concat ll v) i [] = List.getD ll i [] := by
  rw [List.concat_eq_append, List.getD_eq_getElem?_getD, List.getD_eq_getElem?_getD,
    List.getElem?_append_left h]

/-- The heap-aware scan loop writes only to the working array: every
other reference reads the same value after the loop as before it. -/
theorem tokenizeLoopHeap_frame {σ : Type} (c : Bool) (scan : Nat → ScanStep)
    (line : List Char) (h : Option σ) (δ : Int) (N workRef : Nat) :
    ∀ (fuel pos : Nat) (lc a : Bool) (heap : ParentsHeap) (endSt : JSONStateRef σ)
      (acc : List IToken) (r : Nat), r ≠ workRef →
      List.getD (tokenizeLoopHeap c scan line h δ N workRef fuel pos lc a heap endSt acc).1 r []
        = List.getD heap r [] := by
  intro fuel
  induction fuel with
  | zero =>
    intro pos lc a heap endSt acc r hr
    rfl
  | succ fuel ih =>
    intro pos lc a heap endSt acc r hr
    simp only [tokenizeLoopHeap]
    split
    · rfl
    · split
      · rfl
      · rw [ih]
        · exact getD_set_ne heap workRef r _ (fun hh => hr hh.symm)
        · exact hr

/-- C9: a tokenize call leaves the incoming state untouched: the bracket
array referenced by the incoming state holds the same contents after the
call as before it, because the loop works on a freshly allocated copy
(`Array.from(state.parents)`) and only ever writes through the fresh
reference.  The scalar fields (`pendingError`, `afterColon`,
`opaqueHostState`) are values of the immutable incoming record and are
never reassigned by the loop. -/
theorem c9_incoming_state_preserved (σ : Type) (c : Bool) (line : String)
    (state : JSONStateRef σ) (δ : Int) (stop : Option Int) (heap : ParentsHeap)
    (hvalid : state.parentsRef < List.length heap) :
    List.getD (tokenizeHeap c line state δ stop heap).1 state.parentsRef []
      = List.getD heap state.parentsRef [] := by
  simp only [tokenizeHeap, ParentsHeap.alloc]
  rw [tokenizeLoopHeap_frame]
  · exact getD_concat_lt heap _ state.parentsRef hvalid
  · omega

/-- C9 witness: tokenizing the popping line `]` from a state whose
bracket array is the single-element array [Object] leaves that array's
contents unchanged on the heap. -/
theorem c9_witness :
    List.getD
        (tokenizeHeap false "]" (⟨none, none, false, 0⟩ : JSONStateRef Unit) 0 none
          [[JSONParent.Object]]).1 0 []
      = List.getD [[JSONParent.Object]] 0 [] :=
  c9_incoming_state_preserved Unit false "]" ⟨none, none, false, 0⟩ 0 none
    [[JSONParent.Object]] (by decide)

theorem tokenizeLoop_offsets {σ : Type} (c : Bool) (scan : Nat → ScanStep)
    (line : List Char) (h : Option σ) (δ : Int) (N : Nat) :
    ∀ (fuel pos : Nat) (lc : Bool) (ps : List JSONParent) (a : Bool)
      (endSt : JSONState σ) (acc toks : List IToken) (st : JSONState σ),
      tokenizeLoop c scan line h δ N fuel pos lc ps a endSt acc
          = TokenizeResult.ok toks st →
      toks.map IToken.startIndex
        = acc.reverse.map IToken.startIndex
          ++ adjustedOffsets δ N a ((scanSeq scan fuel pos).map Prod.fst) := by
  intro fuel
  induction fuel with
  | zero =>
    intro pos lc ps a endSt acc toks st hok
    simp [tokenizeLoop] at hok
  | succ fuel ih =>
    intro pos lc ps a endSt acc toks st hok
    simp only [tokenizeLoop] at hok
    simp only [scanSeq]
    by_cases hk : (scan pos).kind = SyntaxKind.EOF
    · rw [if_pos hk] at hok
      rw [if_pos hk]
      injection hok with h1 h2
      rw [← h1]
      simp [adjustedOffsets]
    · rw [if_neg hk] at hok
      rw [if_neg hk]
      by_cases hpp : (scan pos).pos = pos
      · rw [if_pos (by rw [hpp])] at hok
        simp at hok
      · rw [if_neg hpp]
        rw [if_neg (by
          intro heq
          apply hpp
          have hcast : ((scan pos).pos : Int) = (pos : Int) := by omega
          exact_mod_cast hcast)] at hok
        have hmap := ih _ _ _ _ _ _ _ _ hok
        rw [hmap]
        simp only [List.reverse_cons, List.map_append, List.map_cons, List.map_nil,
          List.append_assoc, List.cons_append, List.nil_append, adjustedOffsets]
        cases a
        · simp
        · simp

theorem scanStep_pos_ge (cs : List Char) (p : Nat) : p ≤ (scanStep cs p).pos := by
  by_cases hp : p < cs.length
  · exact le_of_lt (scanStep_advance cs p hp).1
  · rw [scanStep_eof cs p (by omega)]

theorem scanSeq_ge (scan : Nat → ScanStep) (hm : ∀ p, p ≤ (scan p).pos) :
    ∀ (fuel pos q : Nat), q ∈ (scanSeq scan fuel pos).map Prod.fst → pos ≤ q := by
  intro fuel
  induction fuel with
  | zero =>
    intro pos q hq
    simp [scanSeq] at hq
  | succ fuel ih =>
    intro pos q hq
    simp only [scanSeq] at hq
    by_cases h1 : (scan pos).kind = SyntaxKind.EOF
    · rw [if_pos h1] at hq
      simp at hq
    rw [if_neg h1] at hq
    by_cases h2 : (scan pos).pos = pos
    · rw [if_pos h2] at hq
      simp at hq
    rw [if_neg h2] at hq
    rw [List.map_cons] at hq
    rcases List.mem_cons.mp hq with hq | hq
    · omega
    · exact le_trans (hm pos) (ih (scan pos).pos q hq)

theorem scanTok_quote (l : List Char) :
    scanTok '"' l = ⟨SyntaxKind.StringLiteral, (scanStringRest l 1 false).1,
      (scanStringRest l 1 false).2⟩ := rfl

theorem scanTok_slash_star (l : List Char) :
    scanTok '/' ('*' :: l) = ⟨SyntaxKind.BlockCommentTrivia, (scanBlockRest l 2 false).1,
      (scanBlockRest l 2 false).2⟩ := rfl

/-- C2: on a recovery line the emitted offsets align exactly with the
original line text.  With pendingError = UnterminatedString the scanned
line is the original with one synthetic quote prepended (two synthetic
characters for UnterminatedBlockComment), the emitted offsets are
`offsetDelta + p` for the first token (whose scan starts at position 0)
and `offsetDelta + p - inserted` for every later token scanned at
position `p`, and for those later tokens `p ≥ inserted` and the scanned
text from `p` on is the original text from `p - inserted` on — so every
reported offset is the token's start in the original line. -/
theorem c2_recovery_offsets :
    (∀ (σ : Type) (c : Bool) (line : String) (st0 : JSONState σ) (δ : Int)
      (stop : Option Int) (toks : List IToken) (st : JSONState σ),
      st0.scanError = some ScanError.UnexpectedEndOfString →
      tokenize c line st0 δ stop = TokenizeResult.ok toks st →
      toks.map IToken.startIndex
          = adjustedOffsets δ 1 false (scanStarts ('"' :: line.toList))
      ∧ (∀ q ∈ (scanStarts ('"' :: line.toList)).head?, q = 0)
      ∧ (∀ q ∈ (scanStarts ('"' :: line.toList)).tail,
          1 ≤ q ∧ ('"' :: line.toList).drop q = line.toList.drop (q - 1)))
    ∧ (∀ (σ : Type) (c : Bool) (line : String) (st0 : JSONState σ) (δ : Int)
      (stop : Option Int) (toks : List IToken) (st : JSONState σ),
      st0.scanError = some ScanError.UnexpectedEndOfComment →
      tokenize c line st0 δ stop = TokenizeResult.ok toks st →
      toks.map IToken.startIndex
          = adjustedOffsets δ 2 false (scanStarts ('/' :: '*' :: line.toList))
      ∧ (∀ q ∈ (scanStarts ('/' :: '*' :: line.toList)).head?, q = 0)
      ∧ (∀ q ∈ (scanStarts ('/' :: '*' :: line.toList)).tail,
          2 ≤ q ∧ ('/' :: '*' :: line.toList).drop q = line.toList.drop (q - 2))) := by
  constructor
  · intro σ c line st0 δ stop toks st hperr hok
    simp only [tokenize, hperr, insertedOf, List.cons_append, List.nil_append] at hok
    have hmap := tokenizeLoop_offsets c (scanStep ('"' :: line.toList))
      ('"' :: line.toList) st0._state δ 1 (('"' :: line.toList).length + 1) 0
      st0.lastWasColon st0.parents false st0.clone [] toks st hok
    refine ⟨by rw [hmap]; simp [scanStarts], ?_, ?_⟩
    · intro q hq
      simp only [scanStarts, scanSeq] at hq
      by_cases h1 : (scanStep ('"' :: line.toList) 0).kind = SyntaxKind.EOF
      · rw [if_pos h1] at hq
        simp at hq
      rw [if_neg h1] at hq
      by_cases h2 : (scanStep ('"' :: line.toList) 0).pos = 0
      · rw [if_pos h2] at hq
        simp at hq
      rw [if_neg h2] at hq
      rw [List.map_cons] at hq
      simp at hq
      exact hq.symm
    · intro q hq
      simp only [scanStarts, scanSeq] at hq
      by_cases h1 : (scanStep ('"' :: line.toList) 0).kind = SyntaxKind.EOF
      · rw [if_pos h1] at hq
        simp at hq
      rw [if_neg h1] at hq
      by_cases h2 : (scanStep ('"' :: line.toList) 0).pos = 0
      · rw [if_pos h2] at hq
        simp at hq
      rw [if_neg h2] at hq
      rw [List.map_cons, List.tail_cons] at hq
      have hge := scanSeq_ge (scanStep ('"' :: line.toList))
        (scanStep_pos_ge ('"' :: line.toList)) ('"' :: line.toList).length
        (scanStep ('"' :: line.toList) 0).pos q hq
      have hfirst : 1 ≤ (scanStep ('"' :: line.toList) 0).pos := by
        rw [scanStep_cons (show ('"' :: line.toList).drop 0 = '"' :: line.toList from rfl)]
        dsimp only
        rw [scanTok_quote]
        have := scanStringRest_bounds line.toList 1 false
        dsimp only
        omega
      refine ⟨by omega, ?_⟩
      obtain ⟨k, rfl⟩ : ∃ k, q = k + 1 := ⟨q - 1, by omega⟩
      simp [List.drop_succ_cons]
  · intro σ c line st0 δ stop toks st hperr hok
    simp only [tokenize, hperr, insertedOf, List.cons_append, List.nil_append] at hok
    have hmap := tokenizeLoop_offsets c (scanStep ('/' :: '*' :: line.toList))
      ('/' :: '*' :: line.toList) st0._state δ 2 (('/' :: '*' :: line.toList).length + 1) 0
      st0.lastWasColon st0.parents false st0.clone [] toks st hok
    refine ⟨by rw [hmap]; simp [scanStarts], ?_, ?_⟩
    · intro q hq
      simp only [scanStarts, scanSeq] at hq
      by_cases h1 : (scanStep ('/' :: '*' :: line.toList) 0).kind = SyntaxKind.EOF
      · rw [if_pos h1] at hq
        simp at hq
      rw [if_neg h1] at hq
      by_cases h2 : (scanStep ('/' :: '*' :: line.toList) 0).pos = 0
      · rw [if_pos h2] at hq
        simp at hq
      rw [if_neg h2] at hq
      rw [List.map_cons] at hq
      simp at hq
      exact hq.symm
    · intro q hq
      simp only [scanStarts, scanSeq] at hq
      by_cases h1 : (scanStep ('/' :: '*' :: line.toList) 0).kind = SyntaxKind.EOF
      · rw [if_pos h1] at hq
        simp at hq
      rw [if_neg h1] at hq
      by_cases h2 : (scanStep ('/' :: '*' :: line.toList) 0).pos = 0
      · rw [if_pos h2] at hq
        simp at hq
      rw [if_neg h2] at hq
      rw [List.map_cons, List.tail_cons] at hq
      have hge := scanSeq_ge (scanStep ('/' :: '*' :: line.toList))
        (scanStep_pos_ge ('/' :: '*' :: line.toList)) ('/' :: '*' :: line.toList).length
        (scanStep ('/' :: '*' :: line.toList) 0).pos q hq
      have hfirst : 2 ≤ (scanStep ('/' :: '*' :: line.toList) 0).pos := by
        rw [scanStep_cons
          (show ('/' :: '*' :: line.toList).drop 0 = '/' :: ('*' :: line.toList) from rfl)]
        dsimp only
        rw [scanTok_slash_star]
        have := scanBlockRest_bounds line.toList 2 false
        dsimp only
        omega
      refine ⟨by omega, ?_⟩
      obtain ⟨k, rfl⟩ : ∃ k, q = k + 2 := ⟨q - 2, by omega⟩
      have hq2 : k + 2 = (k + 1) + 1 := by omega
      rw [hq2]
      simp [List.drop_succ_cons]

/-- C2 witness: the spec's cross-line example.  Tokenizing `line2"}`
with pendingError = UnterminatedString reports the continued string at
offset 0 and the closing brace at its original offset 6; tokenizing
`x */ 5` with pendingError = UnterminatedBlockComment reports offsets
0, 4, 5 of the original line. -/
theorem c2_witness :
    (([⟨0, TOKEN_PROPERTY_NAME⟩, ⟨6, TOKEN_DELIM_OBJECT⟩] : List IToken).map
          IToken.startIndex
        = adjustedOffsets 0 1 false (scanStarts ('"' :: "line2\"\x7d".toList))
      ∧ (∀ q ∈ (scanStarts ('"' :: "line2\"\x7d".toList)).head?, q = 0)
      ∧ (∀ q ∈ (scanStarts ('"' :: "line2\"\x7d".toList)).tail,
          1 ≤ q ∧ ('"' :: "line2\"\x7d".toList).drop q = "line2\"\x7d".toList.drop (q - 1)))
    ∧ (([⟨0, ""⟩, ⟨4, ""⟩, ⟨5, TOKEN_VALUE_NUMBER⟩] : List IToken).map IToken.startIndex
        = adjustedOffsets 0 2 false (scanStarts ('/' :: '*' :: "x */ 5".toList))
      ∧ (∀ q ∈ (scanStarts ('/' :: '*' :: "x */ 5".toList)).head?, q = 0)
      ∧ (∀ q ∈ (scanStarts ('/' :: '*' :: "x */ 5".toList)).tail,
          2 ≤ q ∧ ('/' :: '*' :: "x */ 5".toList).drop q = "x */ 5".toList.drop (q - 2))) :=
  ⟨c2_recovery_offsets.1 Unit false "line2\"\x7d"
      ⟨none, some ScanError.UnexpectedEndOfString, false, [JSONParent.Object]⟩ 0 none
      [⟨0, TOKEN_PROPERTY_NAME⟩, ⟨6, TOKEN_DELIM_OBJECT⟩]
      ⟨none, some ScanError.None, false, []⟩ rfl rfl,
    c2_recovery_offsets.2 Unit false "x */ 5"
      ⟨none, some ScanError.UnexpectedEndOfComment, false, []⟩ 0 none
      [⟨0, ""⟩, ⟨4, ""⟩, ⟨5, TOKEN_VALUE_NUMBER⟩]
      ⟨none, some ScanError.None, false, []⟩ rfl rfl⟩

end MonacoJson
